import Mathlib

/-!
Verification of the Sile file-abstraction layer of the repository
(`sids/io/sile.py`): the structured-file handle, its mode guards, the
scoped open/close discipline, the comment-skipping line reader and the
keyword-seeking scanners, the NetCDF attribute-forwarding variant, and
the dedicated error object.

The embedding is shallow: the file handle's mutable state becomes an
explicit record, the line-oriented stream behind `self.fh` becomes a
`List String` of remaining lines (Python's `fh.readline()` returns the
empty string exactly at end-of-stream), and raising becomes an explicit
`Option`/`Except` result.
-/

namespace Sids

/-! ## String primitives

Python string operations used by the source, modelled over `List Char`
so that every proof obligation on concrete inputs evaluates by `decide`.
-/

/-- Whether the list `p` is an initial segment of `l`
(Python `str.startswith`). -/
def listBeginsWith : List Char → List Char → Bool
  | [], _ => true
  | _ :: _, [] => false
  | a :: as, b :: bs => a == b && listBeginsWith as bs

/-- Whether `needle` occurs as a contiguous sublist of `haystack`
(Python `str.find(needle) >= 0`). The empty needle occurs everywhere,
matching Python where `l.find('') == 0`. -/
def listContainsSub (needle : List Char) : List Char → Bool
  | [] => listBeginsWith needle []
  | c :: cs => listBeginsWith needle (c :: cs) || listContainsSub needle cs

/-- String `s` starts with string `p` (Python `s.startswith(p)`). -/
def strBeginsWith (s p : String) : Bool :=
  listBeginsWith p.data s.data

/-- String `s` contains `sub` as a substring (Python `s.find(sub) >= 0`). -/
def strContainsSub (s sub : String) : Bool :=
  listContainsSub sub.data s.data

/-- String `s` ends with string `p` (Python `s.endswith(p)`). -/
def strEndsWith (s p : String) : Bool :=
  listBeginsWith p.data.reverse s.data.reverse

/-- Lower-case every character (Python `str.lower`, ASCII fragment). -/
def strLower (s : String) : String :=
  String.mk (s.data.map Char.toLower)

/-- Character membership in a string (Python `c in s` for a
one-character `c`). -/
def strHasChar (s : String) (c : Char) : Bool :=
  s.data.contains c

/-! ## Data model

`Sile.__init__` stores the file name, the mode (defaulting to `'r'` via
`__setup`; a falsy mode argument keeps the default, as in
`if mode: self._mode = mode`), and the comment markers `['#']`.
`self.fh` exists only between `__enter__` and `__exit__`; here it is an
`Option` field.
-/

/-- The resource opened by `Sile.__enter__`: `gzip.open(self.file)` when
the file name ends with `'gz'`, otherwise `open(self.file, self._mode)`. -/
inductive OpenedResource where
  | gzipped (path : String)
  | plain (path : String) (mode : String)
deriving DecidableEq, Repr

/-- State of a `Sile` handle: `file`, `_mode`, `_comment`, and the open
resource `fh` (present only inside the scoped open region). -/
structure SileState where
  file : String
  mode : String
  comment : List String
  fh : Option OpenedResource
deriving DecidableEq, Repr

/-- Construction, `Sile.__init__` composed with `Sile.__setup`:
`_mode` is initialized to `'r'` and overwritten only when the `mode`
argument is truthy (a non-empty string); `_comment` is `['#']`; no
resource is opened. -/
def sileInit (filename : String) (mode : Option String) : SileState :=
  { file := filename
    mode := match mode with
            | some m => if m = "" then "r" else m
            | none => "r"
    comment := ["#"]
    fh := none }

/-- Scoped acquisition, `Sile.__enter__`: gzip-open when the file name
ends with `'gz'`, else a plain open with the declared mode. -/
def sileEnter (s : SileState) : SileState :=
  { s with fh := some (if strEndsWith s.file "gz" then
                         OpenedResource.gzipped s.file
                       else
                         OpenedResource.plain s.file s.mode) }

/-- How the scoped region was exited: normally, or with a raised
exception (the `type/value/traceback` arguments of `__exit__`). -/
inductive ExitInfo where
  | normal
  | raised (exc : String)
deriving DecidableEq, Repr

/-- Scoped release, `Sile.__exit__`: closes and deletes `self.fh`
unconditionally and returns `False` (exceptions are never suppressed). -/
def sileExit (s : SileState) (_info : ExitInfo) : SileState × Bool :=
  ({ s with fh := none }, false)

/-- Python `with` statement semantics around a `Sile`: enter, run the
body (which yields a final state and an optional raised exception), then
call `__exit__` on every exit path; since `__exit__` returns `False`, a
raised exception propagates. -/
def withSile (s : SileState) (body : SileState → SileState × Option String) :
    SileState × Option String :=
  let so := sileEnter s
  let r := body so
  match r.2 with
  | none => ((sileExit r.1 ExitInfo.normal).1, none)
  | some e =>
      let x := sileExit r.1 (ExitInfo.raised e)
      (x.1, if x.2 then none else some e)

/-! ## Keyword matching, `Sile.line_has_key` -/

/-- A keyword argument: either a single string or a list of candidate
strings (the Python `isinstance(keyword, (list, np.ndarray))` branch). -/
inductive Keyword where
  | single (s : String)
  | many (ks : List String)
deriving DecidableEq, Repr

/-- Static method `Sile.line_has_key(line, keyword, case=True)`:
substring containment, lower-casing both sides when `case` is false; a
list keyword matches when any candidate is a substring (the
`found |= l.find(key) >= 0` accumulation). -/
def line_has_key (line : String) (keyword : Keyword) (case : Bool) : Bool :=
  match keyword with
  | Keyword.many ks =>
      let ks := if case then ks else ks.map strLower
      let l := if case then line else strLower line
      ks.foldl (fun found key => found || (strContainsSub l key)) false
  | Keyword.single k =>
      let k := if case then k else strLower k
      let l := if case then line else strLower line
      strContainsSub l k

/-- Lower-case a keyword argument: every candidate string lower-cased
(the `keyword = [k.lower() for k in keyword]` / `keyword.lower()`
preprocessing of `line_has_key` when `case` is false). -/
def kwLower : Keyword → Keyword
  | Keyword.single s => Keyword.single (strLower s)
  | Keyword.many ks => Keyword.many (ks.map strLower)

/-! ## Line reading, `Sile.readline` -/

/-- Modelled from the spec: the helper `starts_with_list(l, comments)`
lives in `sids/io/_help.py`, which is not part of the sources at hand;
the spec states that lines "whose content matches any configured
comment-prefix" are skipped, i.e. the line begins with one of the
comment markers. -/
def starts_with_list (l : String) (comments : List String) : Bool :=
  comments.any (fun c => strBeginsWith l c)

/-- Method `Sile.readline(comment=False)` over the remaining stream:
returns the next line and the rest of the stream; when `comment` is
false, lines starting with a configured comment marker are skipped.
An exhausted stream yields the empty-string sentinel, exactly as
`fh.readline()` does at end-of-file. -/
def readline (comment : Bool) (cs : List String) : List String → String × List String
  | [] => ("", [])
  | l :: rest =>
      if comment then (l, rest)
      else if starts_with_list l cs then readline comment cs rest
      else (l, rest)

/-! ## Keyword seeking, `Sile.step_to` and `Sile.step_either` -/

/-- Method `Sile.step_to(keyword, case=True)` over the remaining stream:
repeatedly `readline()` (comment-skipping); the empty-string sentinel
ends the scan with `(False, '')`; a line on which `line_has_key` holds
ends it with `(True, line)`. -/
def step_to (keyword : Keyword) (case : Bool) (cs : List String)
    (ls : List String) : Bool × String :=
  let r := readline false cs ls
  if r.1 = "" then (false, "")
  else if line_has_key r.1 keyword case then (true, r.1)
  else step_to keyword case cs r.2
termination_by ls.length
decreasing_by
  have key : ∀ ls' : List String,
      (readline false cs ls').2.length < ls'.length ∨
      (readline false cs ls').1 = "" := by
    intro ls'
    induction ls' with
    | nil => exact Or.inr rfl
    | cons l rest ih =>
        by_cases h : starts_with_list l cs = true
        · simp only [readline, h, if_true, Bool.false_eq_true, if_false]
          rcases ih with h1 | h2
          · exact Or.inl (Nat.lt_trans h1 (Nat.lt_succ_self _))
          · exact Or.inr h2
        · simp only [readline, h, Bool.false_eq_true, if_false]
          exact Or.inl (Nat.lt_succ_self _)
  rcases key ls with h | h
  · exact h
  · simp_all

/-- The inner `for i, keyword in enumerate(keywords)` loop of
`step_either`: index of the first pattern matching the line, breaking at
the first hit. -/
def scanKeywords (l : String) (case : Bool) : List Keyword → Option Nat
  | [] => none
  | kw :: rest =>
      if line_has_key l kw case then some 0
      else (scanKeywords l case rest).map (· + 1)

/-- Result of `Sile.step_either`: the source has two `return`
statements of different arity, `return found, ''` at the end-of-stream
sentinel (a pair, despite `j` having been initialized to `-1`) and
`return found, j, l` on a match (a triple). -/
inductive EitherResult where
  | pair (found : Bool) (line : String)
  | triple (found : Bool) (j : Nat) (line : String)
deriving DecidableEq, Repr

/-- Method `Sile.step_either(keywords, case=True)` over the remaining
stream: same scanning loop as `step_to`, with the matched pattern index
reported on success. -/
def step_either (keywords : List Keyword) (case : Bool) (cs : List String)
    (ls : List String) : EitherResult :=
  let r := readline false cs ls
  if r.1 = "" then EitherResult.pair false ""
  else match scanKeywords r.1 case keywords with
       | some j => EitherResult.triple true j r.1
       | none => step_either keywords case cs r.2
termination_by ls.length
decreasing_by
  have key : ∀ ls' : List String,
      (readline false cs ls').2.length < ls'.length ∨
      (readline false cs ls').1 = "" := by
    intro ls'
    induction ls' with
    | nil => exact Or.inr rfl
    | cons l rest ih =>
        by_cases h : starts_with_list l cs = true
        · simp only [readline, h, if_true, Bool.false_eq_true, if_false]
          rcases ih with h1 | h2
          · exact Or.inl (Nat.lt_trans h1 (Nat.lt_succ_self _))
          · exact Or.inr h2
        · simp only [readline, h, Bool.false_eq_true, if_false]
          exact Or.inl (Nat.lt_succ_self _)
  rcases key ls with h | h
  · exact h
  · simp_all

/-! ## Mode guards -/

/-- The error object `SileError(value, obj=None)`. -/
structure SileErr where
  value : String
  obj : Option SileState
deriving DecidableEq, Repr

/-- Guard `sile_raise_write(self)`: raises a `SileError` unless the
declared mode contains `'w'` or `'a'`. `none` means no raise. -/
def sile_raise_write (s : SileState) : Option SileErr :=
  if ¬(strHasChar s.mode 'w' || strHasChar s.mode 'a') then
    some ⟨"Writing to a read-only file not possible", some s⟩
  else none

/-- Guard `sile_raise_read(self)`: raises a `SileError` unless the
declared mode contains `'r'` or `'a'`. `none` means no raise. -/
def sile_raise_read (s : SileState) : Option SileErr :=
  if ¬(strHasChar s.mode 'r' || strHasChar s.mode 'a') then
    some ⟨"Reading a write-only file not possible", some s⟩
  else none

/-! ## The error object's string form, `SileError.__str__` -/

/-- Attribute lookup `self.obj.__name__` on an attached handle: the
guards attach a `Sile` instance, and an instance defines no `__name__`
attribute (only the class object does), so Python raises
`AttributeError`; the lookup never yields a string. -/
def sileDunderName (_ : SileState) : Except String String :=
  Except.error "AttributeError: Sile object has no attribute __name__"

/-- Method `SileError.__str__`: `s` starts as the empty string; when a
handle is attached (Python truthiness of `self.obj`) it is recomputed
as `self.obj.__name__ + '(' + self.obj.file + ')'`, whose very first
attribute lookup raises and propagates out of `__str__`; otherwise the
method returns `self.value + ' in ' + s` with `s` still empty. -/
def sileErrorStr (e : SileErr) : Except String String :=
  match e.obj with
  | some o =>
      match sileDunderName o with
      | Except.error err => Except.error err
      | Except.ok n => Except.ok (e.value ++ " in " ++ (n ++ "(" ++ o.file ++ ")"))
  | none => Except.ok (e.value ++ " in " ++ "")

/-! ## The NetCDF variant's attribute forwarding, `NCSile.__getattr__` -/

/-- A Python value, as far as the attribute-forwarding model needs. -/
inductive PyVal where
  | vNone
  | vInt (n : Int)
  | vStr (s : String)
deriving DecidableEq, Repr

/-- Python's three-argument `getattr(obj, name, default)` over an
attribute dictionary: the attribute's value if present, else the
default (no exception). -/
def pyGetattrD (attrs : List (String × PyVal)) (name : String)
    (dflt : PyVal) : PyVal :=
  match attrs.lookup name with
  | some v => v
  | none => dflt

/-- Attribute access on an `NCSile` instance: ordinary lookup first
(instance and class attributes, given as `selfAttrs`); only when that
fails does Python call `NCSile.__getattr__`, whose body is
`getattr(self.fh, attr, None)` — forward to the open resource's
attributes (`fhAttrs`), defaulting to `None`. The result is never an
attribute-lookup error. -/
def ncsileAttr (selfAttrs fhAttrs : List (String × PyVal))
    (attr : String) : Except String PyVal :=
  match selfAttrs.lookup attr with
  | some v => Except.ok v
  | none => Except.ok (pyGetattrD fhAttrs attr PyVal.vNone)

end Sids

namespace Sids

/-! ## Helper lemmas -/

/-- Scanning an exhausted stream yields the sentinel result. -/
theorem step_to_nil (kw : Keyword) (case : Bool) (cs : List String) :
    step_to kw case cs [] = (false, "") := by
  rw [step_to]
  simp [readline]

/-- A leading comment line is skipped by the scan. -/
theorem step_to_cons_comment (kw : Keyword) (case : Bool) (cs : List String)
    (l : String) (rest : List String) (h : starts_with_list l cs = true) :
    step_to kw case cs (l :: rest) = step_to kw case cs rest := by
  conv_lhs => rw [step_to]
  conv_rhs => rw [step_to]
  simp only [readline, h, if_true, Bool.false_eq_true, if_false]

/-- Unfolding of the scan at a leading non-comment line. -/
theorem step_to_cons_plain (kw : Keyword) (case : Bool) (cs : List String)
    (l : String) (rest : List String) (h : starts_with_list l cs = false) :
    step_to kw case cs (l :: rest) =
      if l = "" then (false, "")
      else if line_has_key l kw case then (true, l)
      else step_to kw case cs rest := by
  rw [step_to]
  simp only [readline, h, Bool.false_eq_true, if_false]

/-- Scanning an exhausted stream for alternative keywords yields the
two-element sentinel result. -/
theorem step_either_nil (kws : List Keyword) (case : Bool) (cs : List String) :
    step_either kws case cs [] = EitherResult.pair false "" := by
  rw [step_either]
  simp [readline]

/-- A leading comment line is skipped by the alternative-keyword scan. -/
theorem step_either_cons_comment (kws : List Keyword) (case : Bool)
    (cs : List String) (l : String) (rest : List String)
    (h : starts_with_list l cs = true) :
    step_either kws case cs (l :: rest) = step_either kws case cs rest := by
  conv_lhs => rw [step_either]
  conv_rhs => rw [step_either]
  simp only [readline, h, if_true, Bool.false_eq_true, if_false]

/-- Unfolding of the alternative-keyword scan at a leading non-comment
line. -/
theorem step_either_cons_plain (kws : List Keyword) (case : Bool)
    (cs : List String) (l : String) (rest : List String)
    (h : starts_with_list l cs = false) :
    step_either kws case cs (l :: rest) =
      if l = "" then EitherResult.pair false ""
      else match scanKeywords l case kws with
           | some j => EitherResult.triple true j l
           | none => step_either kws case cs rest := by
  rw [step_either]
  simp only [readline, h, Bool.false_eq_true, if_false]

/-- The enumerate-and-break loop reports the index of a matching
pattern, and every earlier pattern fails on the line. -/
theorem scanKeywords_some (l : String) (case : Bool) (ks : List Keyword)
    (j : Nat) (h : scanKeywords l case ks = some j) :
    (∃ kw, ks[j]? = some kw ∧ line_has_key l kw case = true) ∧
    (∀ i kw, i < j → ks[i]? = some kw → line_has_key l kw case = false) := by
  induction ks generalizing j with
  | nil => simp [scanKeywords] at h
  | cons kw rest ih =>
      by_cases hm : line_has_key l kw case = true
      · simp only [scanKeywords, hm, if_true] at h
        obtain rfl : (0 : Nat) = j := Option.some.inj h
        exact ⟨⟨kw, by simp, hm⟩, fun i kw' hi => absurd hi (Nat.not_lt_zero i)⟩
      · simp only [scanKeywords, hm, Bool.false_eq_true, if_false,
          Option.map_eq_some'] at h
        obtain ⟨j', hj', rfl⟩ := h
        obtain ⟨⟨kw', hget, hkey⟩, hleast⟩ := ih j' hj'
        refine ⟨⟨kw', by simpa using hget, hkey⟩, ?_⟩
        intro i kwi hi hgi
        cases i with
        | zero =>
            simp only [List.getElem?_cons_zero, Option.some.injEq] at hgi
            subst hgi
            exact Bool.eq_false_iff.mpr hm
        | succ i' =>
            refine hleast i' kwi (Nat.lt_of_succ_lt_succ hi) ?_
            simpa using hgi

/-- The comment-skipping reader consumes at least one line of any
stream from which it returns a non-sentinel line. -/
theorem readline_consumes (cs : List String) (ls : List String) :
    (readline false cs ls).2.length < ls.length ∨ (readline false cs ls).1 = "" := by
  induction ls with
  | nil => exact Or.inr rfl
  | cons l rest ih =>
      by_cases h : starts_with_list l cs = true
      · simp only [readline, h, if_true, Bool.false_eq_true, if_false]
        rcases ih with h1 | h2
        · exact Or.inl (Nat.lt_trans h1 (Nat.lt_succ_self _))
        · exact Or.inr h2
      · simp only [readline, h, Bool.false_eq_true, if_false]
        exact Or.inl (Nat.lt_succ_self _)

/-- Boolean-or accumulation over a list is `any` (the shape of the
`found |= ...` loop in `line_has_key`). -/
theorem foldl_or_any {α : Type} (p : α → Bool) (b : Bool) (xs : List α) :
    xs.foldl (fun f k => f || p k) b = (b || xs.any p) := by
  induction xs generalizing b with
  | nil => simp
  | cons x xs ih => simp [ih, Bool.or_assoc]

/-! ## The claims -/

/-- Claim C1: a handle whose declared mode is `r` makes the write guard
raise a `SileError`, a handle whose declared mode is `w` makes the read
guard raise, and a handle whose declared mode is `a` makes neither
guard raise. -/
theorem claim_C1_mode_guards (f : String) (cs : List String)
    (fh : Option OpenedResource) :
    (sile_raise_write ⟨f, "r", cs, fh⟩).isSome = true ∧
    (sile_raise_read ⟨f, "w", cs, fh⟩).isSome = true ∧
    sile_raise_write ⟨f, "a", cs, fh⟩ = none ∧
    sile_raise_read ⟨f, "a", cs, fh⟩ = none := by
  have hr : (strHasChar "r" 'w' || strHasChar "r" 'a') = false := by decide
  have hw : (strHasChar "w" 'r' || strHasChar "w" 'a') = false := by decide
  have haw : (strHasChar "a" 'w' || strHasChar "a" 'a') = true := by decide
  have har : (strHasChar "a" 'r' || strHasChar "a" 'a') = true := by decide
  refine ⟨?_, ?_, ?_, ?_⟩ <;>
    simp only [sile_raise_write, sile_raise_read, hr, hw, haw, har] <;>
    simp

/-- Claim C2: the resource field is absent after construction, present
inside the scoped open region, and cleared on every scope exit — normal
or raised — after which the scope may be re-entered; a raised failure
still propagates out of the scope. -/
theorem claim_C2_scoped_resource :
    (∀ f m, (sileInit f m).fh = none) ∧
    (∀ s, (sileEnter s).fh.isSome = true) ∧
    (∀ s i, (sileExit s i).1.fh = none) ∧
    (∀ s body, (withSile s body).1.fh = none) ∧
    (∀ s body, (withSile s body).2 = (body (sileEnter s)).2) ∧
    (∀ s body, (sileEnter (withSile s body).1).fh.isSome = true) := by
  refine ⟨fun f m => rfl, fun s => rfl, fun s i => rfl, ?_, ?_, ?_⟩
  · intro s body
    unfold withSile
    cases h : (body (sileEnter s)).2 <;> simp [h, sileExit]
  · intro s body
    unfold withSile
    cases h : (body (sileEnter s)).2 <;> simp [h, sileExit]
  · intro s body
    rfl

/-- Claim C3 (code evaluated at the failing input): on a stream with no
matching line, `step_either` returns the two-element `(False, '')`
result, which is not a three-element `(found, j, line)` result for any
index. -/
theorem claim_C3_eof_returns_pair :
    step_either [Keyword.single "key"] true ["#"] ["abc\n"] =
      EitherResult.pair false "" ∧
    (∀ found j line,
      (EitherResult.pair false "" : EitherResult) ≠
        EitherResult.triple found j line) := by
  constructor
  · simp [step_either, readline, scanKeywords, starts_with_list,
      strBeginsWith, listBeginsWith, line_has_key, strContainsSub,
      listContainsSub]
  · intro found j line h
    exact EitherResult.noConfusion h

/-- Claim C4 counterexample: a one-line file whose only line contains
the keyword — but as a comment line. The scan reads through
`readline()` with comment skipping, so the matching line is consumed
silently and the result is `(False, '')`, not `(True, line_k)`. -/
theorem claim_C4_counterexample :
    strContainsSub "# energy\n" "energy" = true ∧
    step_to (Keyword.single "energy") true ["#"] ["# energy\n"] = (false, "") ∧
    step_to (Keyword.single "energy") true ["#"] ["# energy\n"] ≠
      (true, "# energy\n") := by
  have h2 : step_to (Keyword.single "energy") true ["#"] ["# energy\n"] =
      (false, "") := by
    rw [step_to_cons_comment _ _ _ _ _ (by decide), step_to_nil]
  refine ⟨by decide, h2, ?_⟩
  rw [h2]
  decide

/-- Claim C4 as amended: on a file of non-empty lines in which exactly
one line, at position `k`, contains the keyword as a substring and that
line does not begin with a configured comment marker, `step_to` returns
`(True, line_k)`; on a file with no matching line it returns
`(False, '')` after consuming the entire stream. (Comment lines are
skipped by the scan and can never be returned, so a keyword occurring
only on a comment line is not found.) -/
theorem claim_C4_step_to_unique_line (kw : Keyword) (case : Bool)
    (cs : List String) :
    (∀ ls k, k < ls.length →
      starts_with_list (ls.getD k "") cs = false →
      line_has_key (ls.getD k "") kw case = true →
      (∀ i, i < ls.length → i ≠ k → line_has_key (ls.getD i "") kw case = false) →
      (∀ i, i < ls.length → ls.getD i "" ≠ "") →
      step_to kw case cs ls = (true, ls.getD k "")) ∧
    (∀ ls, (∀ l ∈ ls, line_has_key l kw case = false) →
      step_to kw case cs ls = (false, "")) := by
  constructor
  · intro ls
    induction ls with
    | nil => intro k hk; exact absurd hk (Nat.not_lt_zero k)
    | cons l rest ih =>
        intro k hk hnc hkey huniq hne
        by_cases hc : starts_with_list l cs = true
        · rw [step_to_cons_comment _ _ _ _ _ hc]
          cases k with
          | zero =>
              rw [List.getD_cons_zero] at hnc
              rw [hnc] at hc
              exact absurd hc (by simp)
          | succ k' =>
              rw [List.getD_cons_succ] at hnc hkey ⊢
              refine ih k' (Nat.lt_of_succ_lt_succ hk) hnc hkey ?_ ?_
              · intro i hi hik
                have := huniq (i + 1) (Nat.succ_lt_succ hi)
                  (fun hcon => hik (Nat.succ.inj hcon))
                rwa [List.getD_cons_succ] at this
              · intro i hi
                have := hne (i + 1) (Nat.succ_lt_succ hi)
                rwa [List.getD_cons_succ] at this
        · have hc' : starts_with_list l cs = false := by
            simpa using hc
          rw [step_to_cons_plain _ _ _ _ _ hc']
          have hl : l ≠ "" := by
            have := hne 0 (Nat.succ_pos _)
            rwa [List.getD_cons_zero] at this
          rw [if_neg hl]
          cases k with
          | zero =>
              rw [List.getD_cons_zero] at hkey ⊢
              rw [if_pos hkey]
          | succ k' =>
              have hm : line_has_key l kw case = false := by
                have := huniq 0 (Nat.succ_pos _) (Nat.succ_ne_zero k').symm
                rwa [List.getD_cons_zero] at this
              rw [hm]
              rw [List.getD_cons_succ] at hnc hkey ⊢
              simp only [Bool.false_eq_true, if_false]
              refine ih k' (Nat.lt_of_succ_lt_succ hk) hnc hkey ?_ ?_
              · intro i hi hik
                have := huniq (i + 1) (Nat.succ_lt_succ hi)
                  (fun hcon => hik (Nat.succ.inj hcon))
                rwa [List.getD_cons_succ] at this
              · intro i hi
                have := hne (i + 1) (Nat.succ_lt_succ hi)
                rwa [List.getD_cons_succ] at this
  · intro ls h
    induction ls with
    | nil => exact step_to_nil kw case cs
    | cons l rest ih =>
        by_cases hc : starts_with_list l cs = true
        · rw [step_to_cons_comment _ _ _ _ _ hc]
          exact ih (fun l' hl' => h l' (List.mem_cons_of_mem l hl'))
        · have hc' : starts_with_list l cs = false := by
            simpa using hc
          rw [step_to_cons_plain _ _ _ _ _ hc']
          by_cases hz : l = ""
          · rw [if_pos hz]
          · rw [if_neg hz]
            have hm : line_has_key l kw case = false := h l (List.mem_cons_self l rest)
            rw [hm]
            simp only [Bool.false_eq_true, if_false]
            exact ih (fun l' hl' => h l' (List.mem_cons_of_mem l hl'))

/-- Claim C4 witness: the spec's end-to-end file, searched for `bar`
(found at position 2 behind a comment line), and a one-line file with
no match. -/
theorem claim_C4_witness :
    step_to (Keyword.single "bar") true ["#"]
      ["# header\n", "foo 1\n", "bar 2\n"] =
      (true, ["# header\n", "foo 1\n", "bar 2\n"].getD 2 "") ∧
    step_to (Keyword.single "qux") true ["#"] ["foo 1\n"] = (false, "") :=
  ⟨(claim_C4_step_to_unique_line (Keyword.single "bar") true ["#"]).1
      ["# header\n", "foo 1\n", "bar 2\n"] 2 (by decide) (by decide) (by decide)
      (by decide) (by decide),
   (claim_C4_step_to_unique_line (Keyword.single "qux") true ["#"]).2
      ["foo 1\n"] (by decide)⟩

/-- Claim C5: as long as some non-comment line remains, the
comment-skipping reader never returns a line that begins with a
configured comment marker; with skipping disabled it returns the next
raw line, comment or not. -/
theorem claim_C5_readline_skips_comments (cs ls : List String)
    (h : ∃ l ∈ ls, starts_with_list l cs = false) :
    starts_with_list (readline false cs ls).1 cs = false ∧
    (∀ l rest, readline true cs (l :: rest) = (l, rest)) := by
  constructor
  · induction ls with
    | nil => simp at h
    | cons l rest ih =>
        by_cases hc : starts_with_list l cs = true
        · simp only [readline, hc, if_true, Bool.false_eq_true, if_false]
          refine ih ?_
          obtain ⟨w, hw, hnc⟩ := h
          rcases List.mem_cons.mp hw with rfl | hw'
          · rw [hnc] at hc
            exact absurd hc (by simp)
          · exact ⟨w, hw', hnc⟩
        · simp only [readline, hc, Bool.false_eq_true, if_false]
  · intro l rest
    simp [readline]

/-- Claim C5 witness: a stream holding a comment line and a plain line. -/
theorem claim_C5_witness :
    starts_with_list (readline false ["#"] ["# a\n", "x 1\n"]).1 ["#"] = false ∧
    (∀ l rest, readline true ["#"] (l :: rest) = (l, rest)) :=
  claim_C5_readline_skips_comments ["#"] ["# a\n", "x 1\n"] (by decide)

/-- Claim C6 counterexample: the path `datagz` does not end in `.gz`,
yet entering the scope gzip-opens it, because the source tests
`self.file.endswith('gz')` — the dot is not part of the test. -/
theorem claim_C6_counterexample :
    (sileEnter (sileInit "datagz" (some "r"))).fh =
      some (OpenedResource.gzipped "datagz") ∧
    strEndsWith "datagz" ".gz" = false := by
  constructor
  · simp only [sileInit, sileEnter]
    have : strEndsWith "datagz" "gz" = true := by decide
    simp [this]
  · decide

/-- Claim C6 as amended: compressed files are detected exactly by the
path ending in the two-character suffix `gz` (no dot required); such
paths are opened with the gzip opener, all other paths with the plain
opener in the declared mode. -/
theorem claim_C6_gz_detection (f m : String) (cs : List String)
    (fh : Option OpenedResource) :
    ((sileEnter ⟨f, m, cs, fh⟩).fh = some (OpenedResource.gzipped f) ↔
      strEndsWith f "gz" = true) ∧
    ((sileEnter ⟨f, m, cs, fh⟩).fh = some (OpenedResource.plain f m) ↔
      strEndsWith f "gz" = false) ∧
    (∀ f', strEndsWith f' ".gz" = true →
      (sileEnter ⟨f', m, cs, fh⟩).fh = some (OpenedResource.gzipped f')) := by
  refine ⟨?_, ?_, ?_⟩
  · unfold sileEnter
    by_cases h : strEndsWith f "gz" = true <;> simp [h]
  · unfold sileEnter
    by_cases h : strEndsWith f "gz" = true <;> simp [h]
  · intro f' h
    have hg : strEndsWith f' "gz" = true := by
      unfold strEndsWith at h ⊢
      have e1 : (".gz" : String).data.reverse = ['z', 'g', '.'] := by decide
      have e2 : ("gz" : String).data.reverse = ['z', 'g'] := by decide
      rw [e1] at h
      rw [e2]
      rcases hr : f'.data.reverse with _ | ⟨a, _ | ⟨b, r⟩⟩ <;> rw [hr] at h
      · simp [listBeginsWith] at h
      · simp [listBeginsWith] at h
      · simp only [listBeginsWith, Bool.and_eq_true] at h ⊢
        exact ⟨h.1, h.2.1, trivial⟩
    unfold sileEnter
    simp [hg]

/-- Claim C6 witness: entering the scope on the path `data.gz`. -/
theorem claim_C6_witness :
    ((sileEnter ⟨"data.gz", "r", ["#"], none⟩).fh =
        some (OpenedResource.gzipped "data.gz") ↔
      strEndsWith "data.gz" "gz" = true) ∧
    ((sileEnter ⟨"data.gz", "r", ["#"], none⟩).fh =
        some (OpenedResource.plain "data.gz" "r") ↔
      strEndsWith "data.gz" "gz" = false) ∧
    (sileEnter ⟨"data.gz", "r", ["#"], none⟩).fh =
      some (OpenedResource.gzipped "data.gz") :=
  ⟨(claim_C6_gz_detection "data.gz" "r" ["#"] none).1,
   (claim_C6_gz_detection "data.gz" "r" ["#"] none).2.1,
   (claim_C6_gz_detection "data.gz" "r" ["#"] none).2.2 "data.gz" (by decide)⟩

/-- Claim C7: whenever `step_either` reports a match, the reported
index is the smallest index among the patterns that match the winning
line: the pattern at that index matches, and every pattern at an
earlier index fails on that line. -/
theorem claim_C7_matched_index_least (kws : List Keyword) (case : Bool)
    (cs : List String) :
    ∀ ls j l, step_either kws case cs ls = EitherResult.triple true j l →
    (∃ kw, kws[j]? = some kw ∧ line_has_key l kw case = true) ∧
    (∀ i kw, i < j → kws[i]? = some kw → line_has_key l kw case = false) := by
  suffices H : ∀ n ls, ls.length ≤ n → ∀ j l,
      step_either kws case cs ls = EitherResult.triple true j l →
      (∃ kw, kws[j]? = some kw ∧ line_has_key l kw case = true) ∧
      (∀ i kw, i < j → kws[i]? = some kw → line_has_key l kw case = false) by
    intro ls j l h
    exact H ls.length ls (le_refl _) j l h
  intro n
  induction n with
  | zero =>
      intro ls hlen j l h
      obtain rfl : ls = [] := List.length_eq_zero.mp (Nat.le_zero.mp hlen)
      rw [step_either_nil] at h
      exact EitherResult.noConfusion h
  | succ n ih =>
      intro ls hlen j l h
      rw [step_either] at h
      by_cases hr : (readline false cs ls).1 = ""
      · rw [if_pos hr] at h
        exact EitherResult.noConfusion h
      · rw [if_neg hr] at h
        cases hscan : scanKeywords (readline false cs ls).1 case kws with
        | some j0 =>
            rw [hscan] at h
            obtain ⟨-, rfl, rfl⟩ := EitherResult.triple.inj h
            exact scanKeywords_some _ case kws _ hscan
        | none =>
            rw [hscan] at h
            have hlt : (readline false cs ls).2.length < ls.length := by
              rcases readline_consumes cs ls with h' | h'
              · exact h'
              · exact absurd h' hr
            exact ih (readline false cs ls).2
              (Nat.le_of_lt_succ (Nat.lt_of_lt_of_le hlt hlen)) j l h

/-- Claim C7 witness: the winning line `ab` matches pattern 0 (`a`) and
pattern 2 (`b`) but not pattern 1; the scan reports index 0. -/
theorem claim_C7_witness :
    (∃ kw, ([Keyword.single "a", Keyword.single "zz", Keyword.single "b"])[(0 : Nat)]? =
        some kw ∧ line_has_key "ab\n" kw true = true) ∧
    (∀ i kw, i < 0 →
      ([Keyword.single "a", Keyword.single "zz", Keyword.single "b"])[i]? = some kw →
      line_has_key "ab\n" kw true = false) :=
  claim_C7_matched_index_least
    [Keyword.single "a", Keyword.single "zz", Keyword.single "b"] true ["#"]
    ["ab\n"] 0 "ab\n"
    (by simp [step_either, readline, scanKeywords, starts_with_list,
      strBeginsWith, listBeginsWith, line_has_key, strContainsSub,
      listContainsSub])

/-- Claim C8: with `case` false both the line and every keyword
candidate are lower-cased before comparison (so matching a lower-cased
line with lower-cased keywords case-sensitively gives the same answer);
matching is substring containment, a list keyword matching when any
candidate is a substring; and searching `Energy` case-insensitively
matches a line containing `total energy`. -/
theorem claim_C8_case_and_substring :
    (∀ line kw,
      line_has_key line kw false = line_has_key (strLower line) (kwLower kw) true) ∧
    (∀ line k c,
      line_has_key line (Keyword.single k) c =
        strContainsSub (if c then line else strLower line)
          (if c then k else strLower k)) ∧
    (∀ line ks c,
      line_has_key line (Keyword.many ks) c =
        ks.any (fun k =>
          strContainsSub (if c then line else strLower line)
            (if c then k else strLower k))) ∧
    line_has_key "total energy" (Keyword.single "Energy") false = true := by
  refine ⟨?_, ?_, ?_, by decide⟩
  · intro line kw
    cases kw <;> rfl
  · intro line k c
    cases c <;> rfl
  · intro line ks c
    cases c <;> simp [line_has_key, foldl_or_any, List.any_map, Function.comp_def]

/-- Claim C9 counterexample: with no handle attached, the string form
is the message followed by `' in '`, not the message alone; and with a
handle attached no string is produced at all, so in particular the
claimed `<message> in <HandleType>(<path>)` form is never realized. -/
theorem claim_C9_counterexample :
    sileErrorStr ⟨"msg", none⟩ = Except.ok "msg in " ∧
    ("msg in " : String) ≠ "msg" ∧
    (∀ r, sileErrorStr ⟨"msg", some ⟨"f.dat", "r", ["#"], none⟩⟩ ≠ Except.ok r) := by
  refine ⟨rfl, by decide, ?_⟩
  intro r h
  exact Except.noConfusion h

/-- Claim C9 as amended: with no handle attached the string form is
`<message> in ` (the message followed by `' in '`), never the bare
message; with a handle attached the string form does not succeed at
all — the `self.obj.__name__` lookup raises an attribute error, which
propagates out of `__str__`. -/
theorem claim_C9_str_form (v : String) (o : SileState) :
    sileErrorStr ⟨v, none⟩ = Except.ok (v ++ " in ") ∧
    sileErrorStr ⟨v, none⟩ ≠ Except.ok v ∧
    (∀ r, sileErrorStr ⟨v, some o⟩ ≠ Except.ok r) ∧
    (∃ err, sileErrorStr ⟨v, some o⟩ = Except.error err) := by
  refine ⟨?_, ?_, ?_, ?_⟩
  · show Except.ok (v ++ " in " ++ "") = Except.ok (v ++ " in ")
    simp
  · intro h
    have h' : v ++ " in " = v := by simpa [sileErrorStr] using h
    have hlen := congrArg String.length h'
    simp [String.length_append] at hlen
    exact absurd hlen (by decide)
  · intro r h
    exact Except.noConfusion h
  · exact ⟨_, rfl⟩

/-- Claim C9 witness: the error object at a concrete message, with and
without an attached handle. -/
theorem claim_C9_witness :
    sileErrorStr ⟨"msg", none⟩ = Except.ok ("msg" ++ " in ") ∧
    sileErrorStr ⟨"msg", none⟩ ≠ Except.ok "msg" ∧
    (∀ r, sileErrorStr ⟨"msg", some ⟨"f.dat", "r", ["#"], none⟩⟩ ≠ Except.ok r) ∧
    (∃ err, sileErrorStr ⟨"msg", some ⟨"f.dat", "r", ["#"], none⟩⟩ =
      Except.error err) :=
  claim_C9_str_form "msg" ⟨"f.dat", "r", ["#"], none⟩

/-- Claim C10: attribute access on the NetCDF handle forwards any name
not defined on the handle itself to the open resource, yields `None`
when the resource lacks it too, and never produces an attribute-lookup
error. -/
theorem claim_C10_attr_forwarding (selfAttrs fhAttrs : List (String × PyVal))
    (attr : String) :
    (∀ v, selfAttrs.lookup attr = none → fhAttrs.lookup attr = some v →
      ncsileAttr selfAttrs fhAttrs attr = Except.ok v) ∧
    (selfAttrs.lookup attr = none → fhAttrs.lookup attr = none →
      ncsileAttr selfAttrs fhAttrs attr = Except.ok PyVal.vNone) ∧
    (∀ e, ncsileAttr selfAttrs fhAttrs attr ≠ Except.error e) := by
  refine ⟨?_, ?_, ?_⟩
  · intro v hs hf
    simp [ncsileAttr, pyGetattrD, hs, hf]
  · intro hs hf
    simp [ncsileAttr, pyGetattrD, hs, hf]
  · intro e
    unfold ncsileAttr
    cases selfAttrs.lookup attr <;> simp

/-- Claim C10 witness: a misspelled capability request (`grops`) on a
handle whose resource defines only `groups` silently yields `None`; the
correctly spelled request is forwarded to the resource's value. -/
theorem claim_C10_witness :
    ncsileAttr [("file", PyVal.vStr "f.nc")] [("groups", PyVal.vInt 3)] "grops" =
      Except.ok PyVal.vNone ∧
    ncsileAttr [("file", PyVal.vStr "f.nc")] [("groups", PyVal.vInt 3)] "groups" =
      Except.ok (PyVal.vInt 3) :=
  ⟨(claim_C10_attr_forwarding _ _ _).2.1 (by decide) (by decide),
   (claim_C10_attr_forwarding _ _ _).1 (PyVal.vInt 3) (by decide) (by decide)⟩

end Sids
